import Mathlib

/-!
Verification of the NewsGuard dashboard and of its planned enrichment
pipeline.  The browser-side code (API client, `useFetch` hook, dashboard
metrics, article cards, polling logic) is embedded directly from the
JavaScript sources.  The server-side enrichment pipeline (fingerprint
cache, inference client retry loop, enrichment engine, job dispatcher) is
not present in the repository's sources; those definitions are modelled
from the design document and are marked as such in their doc comments.
-/

/-! ## The API client (frontend `lib/api.js`) -/

/-- HTTP method of an API-client operation. -/
inductive Method
  | GET
  | POST
deriving DecidableEq, Repr

/-- The distinct backend routes that appear either in the API client's
operations or among the design document's four dashboard contract points.
`jobStatus` stands for `GET job/{id}`; it is listed so that its absence
from the client can be stated. -/
inductive Endpoint
  | news        -- GET /news?limit=N
  | newsById    -- GET /news/{id}
  | enrich      -- POST /news/enrich/{id}
  | enrichAll   -- POST /news/enrich_all?limit=N
  | newsFetch   -- GET /news/fetch?q=...
  | enrichAsync -- POST /news/enrich_async?limit=N
  | metrics     -- GET /news/metrics
  | jobStatus   -- GET job/{id} (a contract point of the design; no client op)
deriving DecidableEq, Repr

/-- One operation of the default export of `lib/api.js`. -/
structure ApiOp where
  name : String
  method : Method
  endpoint : Endpoint
deriving DecidableEq, Repr

/-- The seven operations the API client exposes, in source order. -/
def apiClient : List ApiOp :=
  [ ⟨"fetchArticles", Method.GET, Endpoint.news⟩
  , ⟨"getArticle", Method.GET, Endpoint.newsById⟩
  , ⟨"enrichArticle", Method.POST, Endpoint.enrich⟩
  , ⟨"enrichAll", Method.POST, Endpoint.enrichAll⟩
  , ⟨"fetchLatest", Method.GET, Endpoint.newsFetch⟩
  , ⟨"enrichAsync", Method.POST, Endpoint.enrichAsync⟩
  , ⟨"metrics", Method.GET, Endpoint.metrics⟩ ]

/-- The method/endpoint pair an operation calls. -/
def opPoint (op : ApiOp) : Method × Endpoint :=
  (op.method, op.endpoint)

/-- The four dashboard-facing contract points named by the design document:
POST enrich/{id}, POST enrich_async?limit=N, GET job/{id}, GET metrics. -/
def specContractPoints : List (Method × Endpoint) :=
  [ (Method.POST, Endpoint.enrich)
  , (Method.POST, Endpoint.enrichAsync)
  , (Method.GET, Endpoint.jobStatus)
  , (Method.GET, Endpoint.metrics) ]

/-! ## `fetchJson` (frontend `lib/api.js`) -/

/-- The two fields of a JSON error body that the try block of `fetchJson`
reads.  A `none` field models an absent property (undefined). -/
structure JsonErrBody where
  detail : Option String
  errMsg : Option String
deriving DecidableEq, Repr

/-- JavaScript `a || b` for a possibly-absent string `a` and a string `b`:
`a` when it is present and truthy (non-empty), otherwise `b`. -/
def jsOrElse (a : Option String) (b : String) : String :=
  match a with
  | some t => if t = "" then b else t
  | none => b

/-- An HTTP response as `fetchJson` observes it: the `ok` flag, the numeric
status, and the body text. -/
structure HttpResponse where
  ok : Bool
  status : Nat
  body : String
deriving DecidableEq, Repr

/-- The try block of `fetchJson`'s non-ok branch.  `parse` models
`JSON.parse` (returning `none` when parsing throws).  Every path of the
block throws: a parse failure throws, and a successful parse reaches
`throw new Error(json.detail || json.error || text)`.  The result is the
message of whichever exception the block raises. -/
def tryBlockOutcome (parse : String → Option JsonErrBody) (text : String) :
    Except String Unit :=
  match parse text with
  | none => Except.error "JSON.parse: unexpected token"
  | some j => Except.error (jsOrElse j.detail (jsOrElse j.errMsg text))

/-- `fetchJson` restricted to what the claims inspect.  On an ok response
it resolves with the body (the `res.json()` value is not examined here).
On a non-ok response the try block runs; whatever it throws is caught by
the block's own catch clause, which throws
`new Error(text || "HTTP " + status)` instead; the caught message is
discarded.  The unreachable ok-outcome of the try block falls through to
the `res.json()` line, as the JavaScript would. -/
def fetchJson (parse : String → Option JsonErrBody) (res : HttpResponse) :
    Except String String :=
  if res.ok then Except.ok res.body
  else
    match tryBlockOutcome parse res.body with
    | Except.ok _ => Except.ok res.body
    | Except.error _ =>
        Except.error (if res.body = "" then "HTTP " ++ toString res.status else res.body)

/-! ## The `useFetch` hook (frontend `hooks/useFetch.js`) -/

/-- The three state cells of the hook. -/
structure HookState where
  data : Option String
  error : Option String
  loading : Bool
deriving DecidableEq, Repr

/-- One invocation of the hook's `call` function.  `staysMounted` records
whether `mounted.current` is still true after the awaited function
settles (the component can unmount during the await).  `setLoading(true)`
and `setError(null)` run synchronously before the await; `setData`,
`setError` on rejection, and the `finally` clause's `setLoading(false)`
are each guarded by `if (mounted.current)`.  The returned value is the
settled outcome: the result is returned on resolution and re-thrown on
rejection. -/
def hookCall (s : HookState) (staysMounted : Bool)
    (outcome : Except String String) : HookState × Except String String :=
  let s1 : HookState := { s with loading := true, error := none }
  match outcome with
  | Except.ok v =>
      let s2 := if staysMounted then { s1 with data := some v } else s1
      let s3 := if staysMounted then { s2 with loading := false } else s2
      (s3, Except.ok v)
  | Except.error e =>
      let s2 := if staysMounted then { s1 with error := some e } else s1
      let s3 := if staysMounted then { s2 with loading := false } else s2
      (s3, Except.error e)

/-! ## Dashboard metrics (frontend `components/Dashboard.jsx`) -/

/-- An article as the `Dashboard` component reads it: only the `bias` and
`sentiment` fields matter; `none` models a null/undefined field. -/
structure UIArticle where
  bias : Option String
  sentiment : Option String
deriving DecidableEq, Repr

/-- JavaScript `.toLowerCase()`, as a map over the string's characters. -/
def jsToLower (s : String) : String :=
  String.mk (s.data.map Char.toLower)

/-- JavaScript `.toUpperCase()`, as a map over the string's characters. -/
def jsToUpper (s : String) : String :=
  String.mk (s.data.map Char.toUpper)

/-- The key under which `Dashboard` counts an article's bias:
`(a.bias || "unknown").toLowerCase()` — JavaScript `||`, so an absent
field and an empty-string field both fall back to "unknown". -/
def biasKeyOf (a : UIArticle) : String :=
  jsToLower (jsOrElse a.bias "unknown")

/-- The key under which `Dashboard` counts an article's sentiment:
`(a.sentiment || "UNKNOWN").toUpperCase()` — JavaScript `||`, so an
absent field and an empty-string field both fall back to "UNKNOWN". -/
def sentimentKeyOf (a : UIArticle) : String :=
  jsToUpper (jsOrElse a.sentiment "UNKNOWN")

/-- The claim's literal reading of the bias key, following the spec's
words: the article's bias field lowercased, with a missing field counted
as "unknown" (an empty-string field, being present, keeps its own
value). -/
def claimBiasKey (a : UIArticle) : String :=
  match a.bias with
  | some s => jsToLower s
  | none => "unknown"

/-- `map[k] = (map[k] || 0) + 1` on an insertion-ordered string-keyed map. -/
def bumpCount (m : List (String × Nat)) (k : String) : List (String × Nat) :=
  match m with
  | [] => [(k, 1)]
  | (k', v) :: rest =>
      if k' = k then (k', v + 1) :: rest else (k', v) :: bumpCount rest k

/-- The counting loop of `Dashboard`'s `useMemo` blocks: fold the articles
into a map keyed by `key`. -/
def countsBy (key : UIArticle → String) (articles : List UIArticle) :
    List (String × Nat) :=
  articles.foldl (fun m a => bumpCount m (key a)) []

/-- The bias distribution `Dashboard` derives from the article list. -/
def biasCounts (articles : List UIArticle) : List (String × Nat) :=
  countsBy biasKeyOf articles

/-- The sentiment distribution `Dashboard` derives from the article list. -/
def sentimentCounts (articles : List UIArticle) : List (String × Nat) :=
  countsBy sentimentKeyOf articles

/-- The count recorded for a label in such a map; 0 when absent. -/
def lookupCount (m : List (String × Nat)) (k : String) : Nat :=
  match m with
  | [] => 0
  | (k', v) :: rest => if k' = k then v else lookupCount rest k

/-! ## Article cards and the synchronous enrich path
(frontend `components/ArticleCard.jsx` and `App.jsx`) -/

/-- An article as `ArticleCard` renders it. -/
structure UIFullArticle where
  title : String
  summary : Option String
  rawText : Option String
  sentiment : Option String
  bias : Option String
deriving DecidableEq, Repr

/-- How one annotation field is shown on a card: a badge with the value,
or an explicit placeholder note for a missing field. -/
inductive FieldView
  | badge (text : String)
  | missingNote (note : String)
deriving DecidableEq, Repr

/-- What an article card displays. -/
structure CardView where
  title : String
  bodyText : String
  sentimentView : FieldView
  biasView : FieldView
deriving DecidableEq, Repr

/-- The body paragraph of a card:
`article.summary ?? (article.raw_text ? article.raw_text.slice(0,200)+"…" : "No text available")`.
An empty `raw_text` string is falsy in JavaScript. -/
def cardBody (a : UIFullArticle) : String :=
  match a.summary with
  | some s => s
  | none =>
      match a.rawText with
      | some t => if t = "" then "No text available" else t.take 200 ++ "…"
      | none => "No text available"

/-- `ArticleCard`'s rendering of an article: body text, a sentiment badge
or the `sentiment: —` note, and a bias badge or the `bias: —` note.  The
JSX tests truthiness (`article.sentiment ? badge : note`), so an
empty-string annotation shows the placeholder note, not a badge. -/
def renderCard (a : UIFullArticle) : CardView :=
  { title := a.title
  , bodyText := cardBody a
  , sentimentView :=
      match a.sentiment with
      | some s =>
          if s = "" then FieldView.missingNote "sentiment: —"
          else FieldView.badge s
      | none => FieldView.missingNote "sentiment: —"
  , biasView :=
      match a.bias with
      | some b =>
          if b = "" then FieldView.missingNote "bias: —"
          else FieldView.badge b
      | none => FieldView.missingNote "bias: —" }

/-- What the user sees after `handleEnrich` settles: either the refreshed
article cards, or the `alert("Enrich failed: " + e.message)` dialog. -/
inductive SyncUiOutcome
  | showCards (cards : List CardView)
  | showAlert (message : String)
deriving DecidableEq, Repr

/-- `App.handleEnrich`: await the sync enrichment; on success reload the
articles (rendered as cards); on rejection show the alert. `outcome` is
the settled result of `api.enrichArticle(id)` followed by the reload,
carrying the refreshed article list on success. -/
def handleEnrichUi (outcome : Except String (List UIFullArticle)) :
    SyncUiOutcome :=
  match outcome with
  | Except.ok arts => SyncUiOutcome.showCards (arts.map renderCard)
  | Except.error msg => SyncUiOutcome.showAlert ("Enrich failed: " ++ msg)

/-! ## Polling (frontend `App.jsx`) -/

/-- The piece of `App` state the async-enrichment flow drives. -/
structure AppState where
  polling : Bool
deriving DecidableEq, Repr

/-- The interval, in milliseconds, of the refresh timer `App` starts when
`polling` is set. -/
def pollIntervalMs : Nat := 20000

/-- Events of the async flow: the `Run Enrich Async` button's handler
settling (successfully or not), and one firing of the interval timer. -/
inductive AppEvent
  | enrichAsyncSettled (success : Bool)
  | intervalTick
deriving DecidableEq, Repr

/-- One step of `App`: the new state and the backend endpoints the step
calls.  `handleEnrichAsync` always issues the `enrich_async` request and
sets `polling` only on success; a timer tick, when `polling` is set, runs
`reloadArticles()` (GET /news) and `loadMetrics()` (GET /news/metrics). -/
def appStep (s : AppState) (e : AppEvent) : AppState × List Endpoint :=
  match e with
  | AppEvent.enrichAsyncSettled ok =>
      (if ok then { s with polling := true } else s, [Endpoint.enrichAsync])
  | AppEvent.intervalTick =>
      if s.polling then (s, [Endpoint.news, Endpoint.metrics]) else (s, [])

/-! ## The enrichment pipeline

The repository contains no backend sources: the pipeline below is
modelled from the design document (fingerprint cache §4.1, inference
client §4.2, enrichment engine §4.3, job dispatcher §4.4). -/

/-- Modelled from the spec: the three task kinds of a cache key
(§3 CacheKey, task kind ∈ \x7bsummarize, sentiment, bias\x7d). -/
inductive TaskKind
  | summarize
  | sentiment
  | bias
deriving DecidableEq, Repr

/-- Modelled from the spec: a cache key — task kind, content fingerprint
(stable hash of normalized text) and parameter set (§3 CacheKey). -/
structure CacheKey where
  task : TaskKind
  fingerprint : Nat
  params : List String
deriving DecidableEq, Repr

/-- Modelled from the spec: text normalization before fingerprinting
(§4.3 "normalized raw text"); characters are lower-cased. -/
def normalizeText (s : String) : String :=
  String.mk (s.data.map Char.toLower)

/-- Modelled from the spec: a stable content hash of the normalized text
(§3 "content fingerprint = stable hash of normalized text"). -/
def contentHash (s : String) : Nat :=
  s.foldl (fun h c => (h * 131 + c.toNat) % 1000000007) 7

/-- Modelled from the spec: the cache key of one task over one article's
text (§4.3 step 1). -/
def mkCacheKey (task : TaskKind) (text : String) (params : List String) :
    CacheKey :=
  ⟨task, contentHash (normalizeText text), params⟩

/-- The fingerprint cache's store: entries, newest first. -/
abbrev Cache : Type := List (CacheKey × String)

/-- Modelled from the spec: `get(key) -> entry|absent` (§4.1). -/
def cacheGet (c : Cache) (k : CacheKey) : Option String :=
  match c with
  | [] => none
  | (k', v) :: rest => if k' = k then some v else cacheGet rest k

/-- Modelled from the spec: `put(key, value)` (§4.1); at most one entry
per key, the newer value winning. -/
def cachePut (c : Cache) (k : CacheKey) (v : String) : Cache :=
  (k, v) :: c.filter (fun e => e.1 != k)

/-- Modelled from the spec: the typed terminal failures of the inference
client (§4.2, §7). -/
inductive InferFailure
  | rateLimited
  | upstreamUnavailable
  | invalidResponse
deriving DecidableEq, Repr

/-- Modelled from the spec: which failures the client retries (§4.2:
rate-limit and transient-server responses; `InvalidResponse` is
terminal). -/
def InferFailure.isRetryable : InferFailure → Bool
  | InferFailure.rateLimited => true
  | InferFailure.upstreamUnavailable => true
  | InferFailure.invalidResponse => false

/-- Modelled from the spec: the retry configuration of the inference
client (§4.2: base delay, multiplicative growth, capped maximum delay,
capped maximum attempt count). -/
structure RetryConfig where
  maxAttempts : Nat
  baseDelayMs : Nat
  growthFactor : Nat
  maxDelayMs : Nat
deriving DecidableEq, Repr

/-- Modelled from the spec: the backoff delay before retry `i` —
multiplicative growth from the base delay, capped at the maximum
delay (§4.2). -/
def backoffDelay (cfg : RetryConfig) (i : Nat) : Nat :=
  min (cfg.baseDelayMs * cfg.growthFactor ^ i) cfg.maxDelayMs

/-- What one client call produced: the final outcome, how many upstream
attempts were made, and the backoff delays slept between successive
failed attempts. -/
structure RetryTrace where
  result : Except InferFailure String
  attempts : Nat
  delays : List Nat
deriving Repr

/-- Modelled from the spec: the retry loop of one inference-client call
(§4.2 step 2).  `respond` gives the upstream outcome of attempt `i`;
`fuel` is how many attempts may still be made.  A retryable failure with
attempts remaining sleeps the backoff delay and retries; otherwise the
failure is surfaced. -/
def retryLoop (cfg : RetryConfig) (respond : Nat → Except InferFailure String) :
    Nat → Nat → RetryTrace
  | 0, _ => ⟨Except.error InferFailure.upstreamUnavailable, 0, []⟩
  | fuel + 1, i =>
      match respond i with
      | Except.ok v => ⟨Except.ok v, 1, []⟩
      | Except.error e =>
          if e.isRetryable && fuel != 0 then
            let t := retryLoop cfg respond fuel (i + 1)
            ⟨t.result, t.attempts + 1, backoffDelay cfg i :: t.delays⟩
          else ⟨Except.error e, 1, []⟩

/-- Modelled from the spec: one full inference-client call under the
configured attempt cap (§4.2). -/
def callWithRetry (cfg : RetryConfig)
    (respond : Nat → Except InferFailure String) : RetryTrace :=
  retryLoop cfg respond cfg.maxAttempts 0

/-- Modelled from the spec: an article as the article store holds it
(§3 Article, restricted to the fields the pipeline touches). -/
structure StoredArticle where
  id : Nat
  rawText : String
  summary : Option String
  sentiment : Option String
  bias : Option String
deriving DecidableEq, Repr

/-- Modelled from the spec: writing one annotation onto an article
(the store's `saveAnnotations`, §6, one field at a time). -/
def applyAnnot (a : StoredArticle) (task : TaskKind) (v : String) :
    StoredArticle :=
  match task with
  | TaskKind.summarize => { a with summary := some v }
  | TaskKind.sentiment => { a with sentiment := some v }
  | TaskKind.bias => { a with bias := some v }

/-- Modelled from the spec: the article store, keyed by article id (§6). -/
abbrev ArticleStore : Type := List (Nat × StoredArticle)

/-- Modelled from the spec: persist one annotation for one article id in
the store (§6 `saveAnnotations`). -/
def storeSave (store : ArticleStore) (id : Nat) (task : TaskKind)
    (v : String) : ArticleStore :=
  store.map (fun e => if e.1 = id then (e.1, applyAnnot e.2 task v) else e)

/-- Look an article up in the store by id. -/
def storeGet (store : ArticleStore) (id : Nat) : Option StoredArticle :=
  match store with
  | [] => none
  | e :: rest => if e.1 = id then some e.2 else storeGet rest id

/-- The shared state the engine threads through: the fingerprint cache,
the upstream-call counter, and the article store. -/
structure PipelineState where
  cache : Cache
  upstreamCalls : Nat
  store : ArticleStore

/-- Modelled from the spec: one task of `enrichOne` (§4.3 steps 1-3).
Compute the cache key; on a hit use the cached value with no upstream
call; on a miss call the client (counted), and on success store the value
in the cache and the article store; on failure keep the typed error for
this task kind only. -/
def runEnrichTask (call : String → Except InferFailure String)
    (task : TaskKind) (params : List String) (a : StoredArticle)
    (st : PipelineState) : Except InferFailure String × PipelineState :=
  let key := mkCacheKey task a.rawText params
  match cacheGet st.cache key with
  | some v => (Except.ok v, { st with store := storeSave st.store a.id task v })
  | none =>
      match call (normalizeText a.rawText) with
      | Except.ok v =>
          (Except.ok v,
            { cache := cachePut st.cache key v
            , upstreamCalls := st.upstreamCalls + 1
            , store := storeSave st.store a.id task v })
      | Except.error e =>
          (Except.error e, { st with upstreamCalls := st.upstreamCalls + 1 })

/-- Modelled from the spec: the inference client's three operations
(§4.2), each already wrapped in its retry loop. -/
structure InferClient where
  summarizeText : String → Except InferFailure String
  classifySentiment : String → Except InferFailure String
  classifyBias : String → List String → Except InferFailure String

/-- What `enrichOne` returns (§4.3 step 4): the article merged with the
annotations that were obtained, alongside the per-task outcomes. -/
structure EnrichOutcome where
  merged : StoredArticle
  summaryResult : Except InferFailure String
  sentimentResult : Except InferFailure String
  biasResult : Except InferFailure String
deriving Repr

/-- Merge a per-task result into an article: successes fill the field,
failures leave it as it was. -/
def mergeResult (a : StoredArticle) (task : TaskKind)
    (r : Except InferFailure String) : StoredArticle :=
  match r with
  | Except.ok v => applyAnnot a task v
  | Except.error _ => a

/-- Modelled from the spec: `enrichOne(article)` (§4.3).  The three task
kinds run in turn over the shared state; each persists its own success
and a failure in one task kind leaves the other task kinds' work
untouched. -/
def enrichOne (client : InferClient) (biasLabels : List String)
    (a : StoredArticle) (st : PipelineState) :
    EnrichOutcome × PipelineState :=
  let (rs, st1) := runEnrichTask client.summarizeText TaskKind.summarize [] a st
  let (rn, st2) := runEnrichTask client.classifySentiment TaskKind.sentiment [] a st1
  let (rb, st3) :=
    runEnrichTask (fun t => client.classifyBias t biasLabels) TaskKind.bias
      biasLabels a st2
  let merged :=
    mergeResult (mergeResult (mergeResult a TaskKind.summarize rs)
      TaskKind.sentiment rn) TaskKind.bias rb
  (⟨merged, rs, rn, rb⟩, st3)

/-! ## The job dispatcher (spec §4.4) -/

/-- Modelled from the spec: per-article status inside a job (§3 Job). -/
inductive AStatus
  | pending
  | running
  | done
  | failed
deriving DecidableEq, Repr

/-- Modelled from the spec: overall job status (§3 Job). -/
inductive JStatus
  | queued
  | running
  | completed
  | completedWithErrors
deriving DecidableEq, Repr

/-- A per-article status is terminal when the article reached `done` or
`failed` (§3 Job "terminal once all per-article statuses reach done or
failed"). -/
def AStatus.isTerminal : AStatus → Bool
  | AStatus.done => true
  | AStatus.failed => true
  | _ => false

/-- Whether a per-article status is `done`. -/
def AStatus.isDone : AStatus → Bool
  | AStatus.done => true
  | _ => false

/-- Whether a per-article status is `failed`. -/
def AStatus.isFailed : AStatus → Bool
  | AStatus.failed => true
  | _ => false

/-- Whether a per-article status is still `pending`. -/
def AStatus.isPending : AStatus → Bool
  | AStatus.pending => true
  | _ => false

/-- Modelled from the spec: the overall status a job reports for given
per-article statuses (§4.4): `completed` when every article reached
`done`, `completedWithErrors` when all are terminal and one `failed`,
`running` once a worker picked an article up, `queued` before that. -/
def overallStatus (ss : List AStatus) : JStatus :=
  if ss.all AStatus.isTerminal then
    if ss.any AStatus.isFailed then JStatus.completedWithErrors
    else JStatus.completed
  else if ss.any (fun s => !(AStatus.isPending s)) then JStatus.running
  else JStatus.queued

/-- Modelled from the spec: how one article's status may move (§4.4):
a worker picks it up, then it finishes `done` or `failed`. -/
inductive AStep : AStatus → AStatus → Prop
  | start : AStep AStatus.pending AStatus.running
  | finishOk : AStep AStatus.running AStatus.done
  | finishErr : AStep AStatus.running AStatus.failed

/-- Modelled from the spec: one dispatcher update of a job — exactly one
article's status advances (§3 Job "mutated only by Dispatcher workers
processing individual articles"). -/
inductive JobStep : List AStatus → List AStatus → Prop
  | step (pre post : List AStatus) (a b : AStatus) (h : AStep a b) :
      JobStep (pre ++ a :: post) (pre ++ b :: post)

/-- The progress rank of a per-article status: statuses only move up. -/
def AStatus.rank : AStatus → Nat
  | AStatus.pending => 0
  | AStatus.running => 1
  | AStatus.done => 2
  | AStatus.failed => 2

/-- The progress rank of an overall job status: both completed states are
maximal. -/
def JStatus.rank : JStatus → Nat
  | JStatus.queued => 0
  | JStatus.running => 1
  | JStatus.completed => 2
  | JStatus.completedWithErrors => 2

/-! ## Supporting lemmas -/

/-- Filtering a key out of the cache leaves every other key's lookup
unchanged. -/
theorem cacheGet_filter_ne (c : Cache) (k k' : CacheKey) (h : k' ≠ k) :
    cacheGet (c.filter (fun e => e.1 != k)) k' = cacheGet c k' := by
  induction c with
  | nil => rfl
  | cons e rest ih =>
      obtain ⟨ek, ev⟩ := e
      by_cases he : ek = k
      · have hf : (ek != k) = false := by simp [he]
        have hne : ek ≠ k' := by intro hk; subst hk; exact h he
        simp [List.filter_cons, hf, cacheGet, hne, ih]
      · have hf : (ek != k) = true := by simp [he]
        simp [List.filter_cons, hf, cacheGet, ih]

/-- The lookup after a `cachePut`: the written key reads the new value,
every other key is untouched. -/
theorem cacheGet_cachePut (c : Cache) (k k' : CacheKey) (v : String) :
    cacheGet (cachePut c k v) k'
      = if k = k' then some v else cacheGet c k' := by
  by_cases h : k = k'
  · simp [cachePut, cacheGet, h]
  · simp only [cachePut, cacheGet, if_neg h]
    exact cacheGet_filter_ne c k k' (fun hk => h hk.symm)

/-! ## Claim C1: the API client's surface -/

/-- C1 counterexample: it is not the case that every operation of the API
client calls one of the four contract points and that the client provides
an operation for each of the four — `fetchArticles` (GET /news) calls
outside the four, and no operation performs GET job/\x7bid\x7d. -/
theorem C1_claim_counterexample :
    ¬ ((∀ op ∈ apiClient, opPoint op ∈ specContractPoints)
        ∧ (∀ cp ∈ specContractPoints, ∃ op ∈ apiClient, opPoint op = cp)) := by
  decide

/-- C1 amended: the client does provide operations for POST enrich/\x7bid\x7d,
POST enrich_async and GET metrics, but it exposes no job-status operation
(GET job/\x7bid\x7d is called by nothing), and exactly four of its seven
operations (fetchArticles, getArticle, enrichAll, fetchLatest) call
endpoints outside the four contract points. -/
theorem C1_amended_api_surface :
    (apiClient.map opPoint).contains (Method.POST, Endpoint.enrich) = true
    ∧ (apiClient.map opPoint).contains (Method.POST, Endpoint.enrichAsync) = true
    ∧ (apiClient.map opPoint).contains (Method.GET, Endpoint.metrics) = true
    ∧ (apiClient.map opPoint).contains (Method.GET, Endpoint.jobStatus) = false
    ∧ apiClient.all (fun op => !(op.endpoint == Endpoint.jobStatus)) = true
    ∧ (apiClient.filter
        (fun op => !(specContractPoints.contains (opPoint op)))).map ApiOp.name
      = ["fetchArticles", "getArticle", "enrichAll", "fetchLatest"] := by
  refine ⟨rfl, rfl, rfl, rfl, rfl, rfl⟩

/-! ## Claim C6: the polling flow after an async enrichment -/

/-- C6 counterexample: after a successful `handleEnrichAsync` the polling
flag is set, yet a firing of the refresh interval never calls the
job-status endpoint — the claim's "polls status" does not hold of the
code, which polls the article list and the metrics. -/
theorem C6_claim_counterexample :
    (appStep ⟨false⟩ (AppEvent.enrichAsyncSettled true)).1.polling = true
    ∧ Endpoint.jobStatus ∉
        (appStep (appStep ⟨false⟩ (AppEvent.enrichAsyncSettled true)).1
          AppEvent.intervalTick).2 := by
  exact ⟨rfl, by decide⟩

/-- C6 amended: after a successful asynchronous enrichment trigger the
dashboard turns polling on and thereafter every firing of the fixed
20-second interval reloads the article list (GET /news) and the metrics
(GET /news/metrics), leaving the polling state on; a failed trigger does
not start polling. -/
theorem C6_amended_polling_behavior :
    (appStep ⟨false⟩ (AppEvent.enrichAsyncSettled true)).1.polling = true
    ∧ (∀ s : AppState, s.polling = true →
        appStep s AppEvent.intervalTick = (s, [Endpoint.news, Endpoint.metrics]))
    ∧ pollIntervalMs = 20000
    ∧ (appStep ⟨false⟩ (AppEvent.enrichAsyncSettled false)).1.polling = false := by
  refine ⟨rfl, ?_, rfl, rfl⟩
  intro s hs
  obtain ⟨p⟩ := s
  cases hs
  rfl

/-! ## Claim C8: the synchronous enrich path in the UI -/

/-- C8 counterexample: a rejected synchronous enrichment produces the
generic `alert("Enrich failed: " + e.message)` dialog, so the dashboard
does not "never show a generic fatal error" on the sync path. -/
theorem C8_claim_counterexample :
    handleEnrichUi (Except.error "HTTP 500")
      = SyncUiOutcome.showAlert "Enrich failed: HTTP 500" := rfl

/-- C8 amended: when the synchronous enrichment request itself rejects,
the dashboard shows the generic `Enrich failed` alert; when it succeeds,
the refreshed cards display each non-empty annotation as a badge and mark
each missing or empty-string annotation with an explicit per-field
placeholder (`sentiment: —`, `bias: —`, and the raw-text or
`No text available` fallback for a missing summary) rather than failing
as a whole. -/
theorem C8_amended_sync_ui_behavior (arts : List UIFullArticle)
    (a : UIFullArticle) (msg : String) :
    handleEnrichUi (Except.ok arts)
      = SyncUiOutcome.showCards (arts.map renderCard)
    ∧ handleEnrichUi (Except.error msg)
        = SyncUiOutcome.showAlert ("Enrich failed: " ++ msg)
    ∧ (∀ s, a.sentiment = some s → s ≠ "" →
        (renderCard a).sentimentView = FieldView.badge s)
    ∧ (a.sentiment = none ∨ a.sentiment = some "" →
        (renderCard a).sentimentView = FieldView.missingNote "sentiment: —")
    ∧ (∀ b, a.bias = some b → b ≠ "" →
        (renderCard a).biasView = FieldView.badge b)
    ∧ (a.bias = none ∨ a.bias = some "" →
        (renderCard a).biasView = FieldView.missingNote "bias: —")
    ∧ (∀ s, a.summary = some s → (renderCard a).bodyText = s)
    ∧ (a.summary = none → a.rawText = none →
        (renderCard a).bodyText = "No text available") := by
  refine ⟨rfl, rfl, ?_, ?_, ?_, ?_, ?_, ?_⟩
  · intro s hs hne; simp [renderCard, hs, hne]
  · intro hs; rcases hs with hs | hs <;> simp [renderCard, hs]
  · intro b hb hne; simp [renderCard, hb, hne]
  · intro hb; rcases hb with hb | hb <;> simp [renderCard, hb]
  · intro s hs; simp [renderCard, cardBody, hs]
  · intro hs hr; simp [renderCard, cardBody, hs, hr]

/-! ## Claim C9: fetchJson's rejection message -/

/-- C9: for every non-ok HTTP response, `fetchJson` rejects with the raw
body text as the message, or `HTTP <status>` when the body is empty — for
every JSON.parse behavior, so the `detail` and `error` fields of a JSON
error body are never used (the Error built from them inside the try block
is caught by that block's own catch clause and replaced). -/
theorem C9_fetchJson_error_message (parse : String → Option JsonErrBody)
    (res : HttpResponse) (h : res.ok = false) :
    fetchJson parse res
      = Except.error
          (if res.body = "" then "HTTP " ++ toString res.status else res.body) := by
  unfold fetchJson
  rw [h]
  cases hp : parse res.body <;> simp [tryBlockOutcome, hp]

/-- C9 witness: a 422 response whose JSON body parses to a `detail` of
"boom" still rejects with the raw body text, not the detail. -/
theorem C9_fetchJson_error_message_witness :
    fetchJson (fun _ => some ⟨some "boom", some "bad"⟩)
        ⟨false, 422, "bad gateway"⟩
      = Except.error
          (if "bad gateway" = "" then "HTTP " ++ toString (422 : Nat)
            else "bad gateway") :=
  C9_fetchJson_error_message _ _ rfl

/-! ## Claim C10: the useFetch hook's call function -/

/-- C10 counterexample: an invocation whose wrapped promise resolves with
"v" after the component unmounted returns `Except.ok "v"`, yet `data` is
not set to the result and `loading` stays true — the claim's resolve
branch does not hold unconditionally. -/
theorem C10_claim_counterexample :
    (hookCall ⟨none, none, false⟩ false (Except.ok "v")).2 = Except.ok "v"
    ∧ (hookCall ⟨none, none, false⟩ false (Except.ok "v")).1.data = none
    ∧ (hookCall ⟨none, none, false⟩ false (Except.ok "v")).1.loading = true :=
  ⟨rfl, rfl, rfl⟩

/-- C10 amended: while the component stays mounted, a rejection leaves
`data` unchanged, sets `error` to the thrown value, ends with `loading`
false and re-throws; a resolution (also while mounted) sets `data` to the
result, leaves `error` null, ends with `loading` false and returns the
result. -/
theorem C10_amended_hook_call_behavior (s : HookState) (e v : String) :
    (hookCall s true (Except.error e)).1.data = s.data
    ∧ (hookCall s true (Except.error e)).1.error = some e
    ∧ (hookCall s true (Except.error e)).1.loading = false
    ∧ (hookCall s true (Except.error e)).2 = Except.error e
    ∧ (hookCall s true (Except.ok v)).1.data = some v
    ∧ (hookCall s true (Except.ok v)).1.error = none
    ∧ (hookCall s true (Except.ok v)).1.loading = false
    ∧ (hookCall s true (Except.ok v)).2 = Except.ok v :=
  ⟨rfl, rfl, rfl, rfl, rfl, rfl, rfl, rfl⟩

/-! ## Claim C7: the metrics are derived counts -/

/-- Bumping a key adds one to that key's count and leaves every other
key's count unchanged. -/
theorem lookupCount_bumpCount (m : List (String × Nat)) (k l : String) :
    lookupCount (bumpCount m k) l
      = lookupCount m l + (if k = l then 1 else 0) := by
  induction m with
  | nil => by_cases h : k = l <;> simp [bumpCount, lookupCount, h]
  | cons e rest ih =>
      obtain ⟨k', v⟩ := e
      by_cases h1 : k' = k
      · subst h1
        by_cases h2 : k' = l <;> simp [bumpCount, lookupCount, h2]
      · by_cases h2 : k' = l
        · have hkl : ¬ (k = l) := fun hk => h1 (h2.trans hk.symm)
          have hlk : ¬ (l = k) := fun hl => hkl hl.symm
          simp [bumpCount, lookupCount, h1, h2, hkl, hlk]
        · simp [bumpCount, lookupCount, h1, h2, ih]

/-- The fold that builds a counts map records, for every label, the
number of articles whose key is that label (on top of whatever the
accumulator already held). -/
theorem lookupCount_foldl (key : UIArticle → String)
    (articles : List UIArticle) :
    ∀ (m : List (String × Nat)) (l : String),
      lookupCount (articles.foldl (fun m a => bumpCount m (key a)) m) l
        = lookupCount m l + articles.countP (fun a => key a == l) := by
  induction articles with
  | nil => intro m l; simp
  | cons a rest ih =>
      intro m l
      simp only [List.foldl_cons, List.countP_cons]
      rw [ih (bumpCount m (key a)) l, lookupCount_bumpCount]
      by_cases h : key a = l <;> · simp [h]; try omega

/-- C7 counterexample: an article whose bias field is present but empty
has a lowercased bias field equal to "" (it is not missing), yet the
dashboard counts it under "unknown" and records no count for "" — the
JavaScript `a.bias || "unknown"` treats an empty string as falsy, so the
claim's "missing field counted as unknown" reading miscounts it. -/
theorem C7_claim_counterexample :
    claimBiasKey ⟨some "", none⟩ = ""
    ∧ lookupCount (biasCounts [⟨some "", none⟩]) "" = 0
    ∧ lookupCount (biasCounts [⟨some "", none⟩]) "unknown" = 1 := by
  refine ⟨rfl, by decide, by decide⟩

/-- C7 amended: the metrics snapshot is a pure derived function of the
article list — for every label, the bias distribution counts exactly the
articles whose bias field, lowercased with a missing or empty (falsy)
field read as "unknown", equals that label, and the sentiment
distribution counts exactly the articles whose sentiment field,
uppercased with a missing or empty field read as "UNKNOWN", equals that
label. -/
theorem C7_metrics_derived_counts (articles : List UIArticle) (label : String) :
    lookupCount (biasCounts articles) label
      = articles.countP (fun a => jsToLower (jsOrElse a.bias "unknown") == label)
    ∧ lookupCount (sentimentCounts articles) label
      = articles.countP
          (fun a => jsToUpper (jsOrElse a.sentiment "UNKNOWN") == label) := by
  constructor
  · have h := lookupCount_foldl biasKeyOf articles [] label
    simpa [biasCounts, countsBy, lookupCount, biasKeyOf] using h
  · have h := lookupCount_foldl sentimentKeyOf articles [] label
    simpa [sentimentCounts, countsBy, lookupCount, sentimentKeyOf] using h

/-! ## Claim C3: enrichment is idempotent under content addressing -/

/-- C3: for two articles with identical normalized text and identical
task parameters, once the first enrichment of the task succeeded, the
second enrichment is a cache hit — it makes zero additional upstream
calls and yields the identical annotation value; and at the cache level,
putting an equal value under an existing key changes no lookup, while
putting a different value under the same key makes the newer value win. -/
theorem C3_cache_idempotent_enrichment
    (call : String → Except InferFailure String) (task : TaskKind)
    (params : List String) (a1 a2 : StoredArticle) (st : PipelineState)
    (v : String)
    (hsame : normalizeText a2.rawText = normalizeText a1.rawText)
    (h1 : (runEnrichTask call task params a1 st).1 = Except.ok v) :
    ((runEnrichTask call task params a2
        (runEnrichTask call task params a1 st).2).1 = Except.ok v
      ∧ (runEnrichTask call task params a2
          (runEnrichTask call task params a1 st).2).2.upstreamCalls
        = (runEnrichTask call task params a1 st).2.upstreamCalls)
    ∧ (∀ (c : Cache) (k : CacheKey) (w : String),
        cacheGet c k = some w →
          ∀ k', cacheGet (cachePut c k w) k' = cacheGet c k')
    ∧ (∀ (c : Cache) (k : CacheKey) (w w' : String),
        cacheGet (cachePut (cachePut c k w) k w') k = some w') := by
  refine ⟨?_, ?_, ?_⟩
  · have hkey : mkCacheKey task a2.rawText params
        = mkCacheKey task a1.rawText params := by
      simp [mkCacheKey, hsame]
    cases hget : cacheGet st.cache (mkCacheKey task a1.rawText params) with
    | some w =>
        simp only [runEnrichTask, hget, Except.ok.injEq] at h1
        subst h1
        simp [runEnrichTask, hkey, hget]
    | none =>
        cases hcall : call (normalizeText a1.rawText) with
        | ok w =>
            simp only [runEnrichTask, hget, hcall, Except.ok.injEq] at h1
            subst h1
            have hhit :
                cacheGet
                  (cachePut st.cache (mkCacheKey task a1.rawText params) w)
                  (mkCacheKey task a1.rawText params) = some w := by
              rw [cacheGet_cachePut, if_pos rfl]
            simp [runEnrichTask, hget, hcall, hkey, hhit]
        | error e =>
            simp [runEnrichTask, hget, hcall] at h1
  · intro c k w hw k'
    rw [cacheGet_cachePut]
    by_cases h : k = k'
    · subst h; rw [if_pos rfl, hw]
    · rw [if_neg h]
  · intro c k w w'
    rw [cacheGet_cachePut, if_pos rfl]

/-- C3 witness: enriching the same two-character article twice over an
empty cache returns the same annotation the second time, as a hit. -/
theorem C3_cache_idempotent_enrichment_witness :
    (runEnrichTask (fun _ => Except.ok "S") TaskKind.summarize []
        (⟨1, "ab", none, none, none⟩ : StoredArticle)
        ((runEnrichTask (fun _ => Except.ok "S") TaskKind.summarize []
            (⟨1, "ab", none, none, none⟩ : StoredArticle)
            ⟨[], 0, []⟩).2)).1 = Except.ok "S" :=
  ((C3_cache_idempotent_enrichment (fun _ => Except.ok "S") TaskKind.summarize
      [] ⟨1, "ab", none, none, none⟩ ⟨1, "ab", none, none, none⟩
      ⟨[], 0, []⟩ "S" rfl rfl).1).1

/-! ## Claim C4: a failing task does not block the other annotations -/

/-- Cache keys of different task kinds never collide. -/
theorem mkCacheKey_ne_of_task_ne {t1 t2 : TaskKind} (h : t1 ≠ t2)
    (x y : String) (p q : List String) :
    mkCacheKey t1 x p ≠ mkCacheKey t2 y q := by
  intro hk
  exact h (congrArg CacheKey.task hk)

/-- C4: for every article processed by `enrichOne` over a fresh cache,
if summarization succeeds and bias classification returns
`InvalidResponse`, the summary is still persisted — in the merged result
and in the article store — and the returned result reports the summary as
present and the bias as failed, rather than an all-or-nothing failure. -/
theorem C4_per_task_failure_isolation (client : InferClient)
    (biasLabels : List String) (a : StoredArticle) (s : String)
    (hsum : client.summarizeText (normalizeText a.rawText) = Except.ok s)
    (hbias : client.classifyBias (normalizeText a.rawText) biasLabels
      = Except.error InferFailure.invalidResponse) :
    (enrichOne client biasLabels a ⟨[], 0, [(a.id, a)]⟩).1.summaryResult
        = Except.ok s
    ∧ (enrichOne client biasLabels a ⟨[], 0, [(a.id, a)]⟩).1.biasResult
        = Except.error InferFailure.invalidResponse
    ∧ (enrichOne client biasLabels a ⟨[], 0, [(a.id, a)]⟩).1.merged.summary
        = some s
    ∧ (∃ b, storeGet (enrichOne client biasLabels a
          ⟨[], 0, [(a.id, a)]⟩).2.store a.id = some b
        ∧ b.summary = some s) := by
  have hsn : mkCacheKey TaskKind.summarize a.rawText []
      ≠ mkCacheKey TaskKind.sentiment a.rawText [] :=
    mkCacheKey_ne_of_task_ne (by simp) _ _ _ _
  have hsb : mkCacheKey TaskKind.summarize a.rawText []
      ≠ mkCacheKey TaskKind.bias a.rawText biasLabels :=
    mkCacheKey_ne_of_task_ne (by simp) _ _ _ _
  have hnb : mkCacheKey TaskKind.sentiment a.rawText []
      ≠ mkCacheKey TaskKind.bias a.rawText biasLabels :=
    mkCacheKey_ne_of_task_ne (by simp) _ _ _ _
  cases hsen : client.classifySentiment (normalizeText a.rawText) with
  | ok w =>
      refine ⟨?_, ?_, ?_, ?_⟩ <;>
        simp [enrichOne, runEnrichTask, cacheGet, cachePut, storeSave,
          storeGet, mergeResult, applyAnnot, hsum, hsen, hbias, hsn, hsb, hnb]
  | error e =>
      refine ⟨?_, ?_, ?_, ?_⟩ <;>
        simp [enrichOne, runEnrichTask, cacheGet, cachePut, storeSave,
          storeGet, mergeResult, applyAnnot, hsum, hsen, hbias, hsn, hsb, hnb]

/-- C4 witness: a concrete client whose bias classification returns
`InvalidResponse` still gets the article's summary persisted. -/
theorem C4_per_task_failure_isolation_witness :
    (enrichOne
        ⟨fun _ => Except.ok "S", fun _ => Except.ok "POSITIVE",
          fun _ _ => Except.error InferFailure.invalidResponse⟩
        ["left", "center"] ⟨2, "xy", none, none, none⟩
        ⟨[], 0, [(2, ⟨2, "xy", none, none, none⟩)]⟩).1.merged.summary
      = some "S" :=
  (C4_per_task_failure_isolation
      ⟨fun _ => Except.ok "S", fun _ => Except.ok "POSITIVE",
        fun _ _ => Except.error InferFailure.invalidResponse⟩
      ["left", "center"] ⟨2, "xy", none, none, none⟩ "S" rfl rfl).2.2.1

/-! ## Claim C5: bounded retries with non-decreasing capped backoff -/

/-- Every backoff delay respects the configured cap. -/
theorem backoffDelay_le_max (cfg : RetryConfig) (i : Nat) :
    backoffDelay cfg i ≤ cfg.maxDelayMs :=
  min_le_right _ _

/-- With a growth factor of at least one, backoff delays never decrease
with the attempt index. -/
theorem backoffDelay_mono (cfg : RetryConfig) (hg : 1 ≤ cfg.growthFactor)
    {i j : Nat} (hij : i ≤ j) :
    backoffDelay cfg i ≤ backoffDelay cfg j :=
  min_le_min
    (Nat.mul_le_mul_left _ (Nat.pow_le_pow_right hg hij)) le_rfl

/-- The retry loop never makes more attempts than it has fuel. -/
theorem retryLoop_attempts_le (cfg : RetryConfig)
    (respond : Nat → Except InferFailure String) :
    ∀ (fuel i : Nat), (retryLoop cfg respond fuel i).attempts ≤ fuel := by
  intro fuel
  induction fuel with
  | zero => intro i; exact le_refl 0
  | succ f ih =>
      intro i
      cases hr : respond i with
      | ok v => simp [retryLoop, hr]
      | error e =>
          by_cases hc : (e.isRetryable && f != 0) = true
          · simp only [retryLoop, hr, hc, if_true]
            exact Nat.succ_le_succ (ih (i + 1))
          · simp [retryLoop, hr, hc]

/-- The delays the retry loop sleeps are chained non-decreasing, capped by
the maximum delay, and bounded below by the delay of the starting
attempt. -/
theorem retryLoop_delays_facts (cfg : RetryConfig)
    (respond : Nat → Except InferFailure String) (hg : 1 ≤ cfg.growthFactor) :
    ∀ (fuel i : Nat),
      List.Chain' (· ≤ ·) ((retryLoop cfg respond fuel i).delays)
      ∧ (∀ d ∈ (retryLoop cfg respond fuel i).delays, d ≤ cfg.maxDelayMs)
      ∧ (∀ d ∈ (retryLoop cfg respond fuel i).delays, backoffDelay cfg i ≤ d) := by
  intro fuel
  induction fuel with
  | zero => intro i; refine ⟨List.chain'_nil, ?_, ?_⟩ <;> intro d hd <;> cases hd
  | succ f ih =>
      intro i
      cases hr : respond i with
      | ok v =>
          refine ⟨?_, ?_, ?_⟩ <;> simp [retryLoop, hr]
      | error e =>
          by_cases hc : (e.isRetryable && f != 0) = true
          · have hih := ih (i + 1)
            simp only [retryLoop, hr, hc, if_true]
            refine ⟨?_, ?_, ?_⟩
            · refine List.Chain'.cons' hih.1 ?_
              intro b hb
              have hbmem := List.mem_of_mem_head? hb
              exact le_trans
                (backoffDelay_mono cfg hg (Nat.le_succ i))
                (hih.2.2 b hbmem)
            · intro d hd
              rcases List.mem_cons.mp hd with h | h
              · subst h; exact backoffDelay_le_max cfg i
              · exact hih.2.1 d h
            · intro d hd
              rcases List.mem_cons.mp hd with h | h
              · subst h; exact le_refl _
              · exact le_trans
                  (backoffDelay_mono cfg hg (Nat.le_succ i))
                  (hih.2.2 d h)
          · refine ⟨?_, ?_, ?_⟩ <;> simp [retryLoop, hr, hc]

/-- When the upstream answers with retryable failures for the first `N`
attempts and succeeds on attempt `N`, the retry loop (given fuel beyond
`N`) surfaces the success after exactly `N + 1` attempts. -/
theorem retryLoop_ok_after (cfg : RetryConfig)
    (respond : Nat → Except InferFailure String) (v : String) :
    ∀ (N i fuel : Nat),
      (∀ j, j < N →
        ∃ e, respond (i + j) = Except.error e ∧ e.isRetryable = true) →
      respond (i + N) = Except.ok v → N < fuel →
      (retryLoop cfg respond fuel i).result = Except.ok v
      ∧ (retryLoop cfg respond fuel i).attempts = N + 1 := by
  intro N
  induction N with
  | zero =>
      intro i fuel herr hok hlt
      obtain ⟨f, rfl⟩ : ∃ f, fuel = f + 1 := ⟨fuel - 1, by omega⟩
      rw [Nat.add_zero] at hok
      simp [retryLoop, hok]
  | succ n ih =>
      intro i fuel herr hok hlt
      obtain ⟨f, rfl⟩ : ∃ f, fuel = f + 1 := ⟨fuel - 1, by omega⟩
      obtain ⟨e, he, hre⟩ := herr 0 (Nat.succ_pos n)
      rw [Nat.add_zero] at he
      have hf : f ≠ 0 := by omega
      have hcond : (e.isRetryable && f != 0) = true := by simp [hre, hf]
      have hih := ih (i + 1) f
        (fun j hj => by
          obtain ⟨e', he', hre'⟩ := herr (j + 1) (Nat.succ_lt_succ hj)
          refine ⟨e', ?_, hre'⟩
          rw [show i + 1 + j = i + (j + 1) by omega]
          exact he')
        (by rw [show i + 1 + n = i + (n + 1) by omega]; exact hok)
        (by omega)
      simp [retryLoop, he, hcond, hih.1, hih.2]

/-- C5: every inference-client call makes at most the configured maximum
number of attempts; the backoff delays between successive failed attempts
are non-decreasing (multiplicative growth from the base delay) and capped
by the configured maximum delay; and when the upstream fails retryably on
the first `N` attempts and then succeeds within the attempt budget, the
call surfaces the success, in exactly `N + 1` attempts. -/
theorem C5_retry_backoff_bounds (cfg : RetryConfig)
    (respond : Nat → Except InferFailure String)
    (hg : 1 ≤ cfg.growthFactor) :
    (callWithRetry cfg respond).attempts ≤ cfg.maxAttempts
    ∧ List.Chain' (· ≤ ·) (callWithRetry cfg respond).delays
    ∧ (∀ d ∈ (callWithRetry cfg respond).delays, d ≤ cfg.maxDelayMs)
    ∧ (∀ (N : Nat) (v : String), N < cfg.maxAttempts →
        (∀ j, j < N → ∃ e, respond j = Except.error e ∧ e.isRetryable = true) →
        respond N = Except.ok v →
        (callWithRetry cfg respond).result = Except.ok v
          ∧ (callWithRetry cfg respond).attempts = N + 1) := by
  refine ⟨retryLoop_attempts_le cfg respond cfg.maxAttempts 0,
    (retryLoop_delays_facts cfg respond hg cfg.maxAttempts 0).1,
    (retryLoop_delays_facts cfg respond hg cfg.maxAttempts 0).2.1, ?_⟩
  intro N v hN herr hok
  exact retryLoop_ok_after cfg respond v N 0 cfg.maxAttempts
    (fun j hj => by simpa using herr j hj) (by simpa using hok) hN

/-- C5 witness: with five attempts allowed, base delay 100ms, growth
factor 2 and cap 1000ms, a client that is rate-limited twice stays within
the attempt budget. -/
theorem C5_retry_backoff_bounds_witness :
    (callWithRetry ⟨5, 100, 2, 1000⟩
        (fun i => if i < 2 then Except.error InferFailure.rateLimited
          else Except.ok "v")).attempts
      ≤ (⟨5, 100, 2, 1000⟩ : RetryConfig).maxAttempts :=
  (C5_retry_backoff_bounds ⟨5, 100, 2, 1000⟩
      (fun i => if i < 2 then Except.error InferFailure.rateLimited
        else Except.ok "v") (by decide)).1

/-! ## Claim C2: the job status state machine -/

/-- A per-article step strictly raises the article's progress rank:
statuses never regress. -/
theorem astep_rank_lt {a b : AStatus} (h : AStep a b) :
    AStatus.rank a < AStatus.rank b := by
  cases h <;> decide

/-- A per-article step only ever starts from a non-terminal status. -/
theorem astep_source_not_terminal {a b : AStatus} (h : AStep a b) :
    a.isTerminal = false := by
  cases h <;> rfl

/-- A per-article step never ends in `pending`. -/
theorem astep_target_not_pending {a b : AStatus} (h : AStep a b) :
    b.isPending = false := by
  cases h <;> rfl

/-- A list with a member refuting the predicate fails `all`. -/
theorem all_eq_false_of_mem {p : AStatus → Bool} {ss : List AStatus}
    {x : AStatus} (hx : x ∈ ss) (hpx : p x = false) : ss.all p = false := by
  rw [Bool.eq_false_iff]
  intro hall
  have hpt := List.all_eq_true.mp hall x hx
  rw [hpx] at hpt
  exact Bool.false_ne_true hpt

/-- A job with a non-terminal article is at most `running` (rank 1). -/
theorem overall_rank_le_one {ss : List AStatus}
    (h : ss.all AStatus.isTerminal = false) :
    (overallStatus ss).rank ≤ 1 := by
  simp only [overallStatus, h, Bool.false_eq_true, if_false]
  split <;> decide

/-- A job with a picked-up article is at least `running` (rank 1). -/
theorem one_le_overall_rank {ss : List AStatus}
    (h : ss.any (fun s => !(AStatus.isPending s)) = true) :
    1 ≤ (overallStatus ss).rank := by
  unfold overallStatus
  split
  · split <;> decide
  · decide

/-- The overall status's rank never decreases across a dispatcher step. -/
theorem jobStep_rank_mono {ss ss' : List AStatus} (h : JobStep ss ss') :
    (overallStatus ss).rank ≤ (overallStatus ss').rank := by
  cases h with
  | step pre post a b hab =>
      have h1 : (pre ++ a :: post).all AStatus.isTerminal = false :=
        all_eq_false_of_mem (by simp) (astep_source_not_terminal hab)
      have h2 : (pre ++ b :: post).any (fun s => !(AStatus.isPending s)) = true := by
        refine List.any_eq_true.mpr ⟨b, by simp, ?_⟩
        simp [astep_target_not_pending hab]
      exact le_trans (overall_rank_le_one h1) (one_le_overall_rank h2)

/-- A job whose per-article statuses are all terminal admits no further
dispatcher step: it is immutable. -/
theorem no_jobStep_of_terminal {ss : List AStatus}
    (h : ss.all AStatus.isTerminal = true) :
    ∀ ss', ¬ JobStep ss ss' := by
  intro ss' hstep
  cases hstep with
  | step pre post a b hab =>
      have hmem : a ∈ pre ++ a :: post := by simp
      have hterm := List.all_eq_true.mp h a hmem
      rw [astep_source_not_terminal hab] at hterm
      exact Bool.false_ne_true hterm

/-- Every status is `done` exactly when every status is terminal and none
is `failed`. -/
theorem all_done_eq (ss : List AStatus) :
    ss.all AStatus.isDone
      = (ss.all AStatus.isTerminal && !(ss.any AStatus.isFailed)) := by
  induction ss with
  | nil => rfl
  | cons x rest ih =>
      cases x <;>
        simp [AStatus.isDone, AStatus.isTerminal, AStatus.isFailed, ih]

/-- The overall status is `completed` exactly when every per-article
status is `done`. -/
theorem overall_completed_iff (ss : List AStatus) :
    overallStatus ss = JStatus.completed ↔ ss.all AStatus.isDone = true := by
  rw [all_done_eq]
  unfold overallStatus
  by_cases h1 : ss.all AStatus.isTerminal = true
  · by_cases h2 : ss.any AStatus.isFailed = true
    · simp [h1, h2]
    · have h2f := Bool.eq_false_iff.mpr h2
      simp [h1, h2f]
  · have h1f := Bool.eq_false_iff.mpr h1
    simp [h1f]
    split <;> simp

/-- The overall status is `completedWithErrors` exactly when every
per-article status is terminal and at least one is `failed`. -/
theorem overall_cwe_iff (ss : List AStatus) :
    overallStatus ss = JStatus.completedWithErrors ↔
      (ss.all AStatus.isTerminal = true ∧ ss.any AStatus.isFailed = true) := by
  unfold overallStatus
  by_cases h1 : ss.all AStatus.isTerminal = true
  · by_cases h2 : ss.any AStatus.isFailed = true
    · simp [h1, h2]
    · have h2f := Bool.eq_false_iff.mpr h2
      simp [h1, h2f]
  · have h1f := Bool.eq_false_iff.mpr h1
    simp [h1f]
    split <;> simp

/-- A terminal job is never reported `queued` or `running`. -/
theorem overall_terminal_not_queued_running {ss : List AStatus}
    (h : ss.all AStatus.isTerminal = true) :
    overallStatus ss ≠ JStatus.queued ∧ overallStatus ss ≠ JStatus.running := by
  simp only [overallStatus, h, if_true]
  constructor <;> split <;> simp

/-- C2 counterexample: the job reached from two pending articles by
running and failing the first article is a reachable job with a `failed`
article whose overall status is `running`, not `completedWithErrors` —
the claim's "completed_with_errors iff at least one failed" does not hold
while another article is still pending. -/
theorem C2_claim_counterexample :
    Relation.ReflTransGen JobStep
      [AStatus.pending, AStatus.pending] [AStatus.failed, AStatus.pending]
    ∧ [AStatus.failed, AStatus.pending].any AStatus.isFailed = true
    ∧ overallStatus [AStatus.failed, AStatus.pending] = JStatus.running
    ∧ overallStatus [AStatus.failed, AStatus.pending]
        ≠ JStatus.completedWithErrors := by
  refine ⟨?_, by decide, by decide, by decide⟩
  have s1 : JobStep [AStatus.pending, AStatus.pending]
      [AStatus.running, AStatus.pending] :=
    JobStep.step [] [AStatus.pending] AStatus.pending AStatus.running
      AStep.start
  have s2 : JobStep [AStatus.running, AStatus.pending]
      [AStatus.failed, AStatus.pending] :=
    JobStep.step [] [AStatus.pending] AStatus.running AStatus.failed
      AStep.finishErr
  exact Relation.ReflTransGen.head s1 (Relation.ReflTransGen.single s2)

/-- C2 amended: a job's overall status is `completed` iff every
per-article status is `done`; it is `completedWithErrors` iff every
per-article status is terminal and at least one is `failed`; it is never
`queued` or `running` once all per-article statuses are terminal;
per-article statuses never regress, the overall status's rank never
decreases across a dispatcher step, and a job in a completed state admits
no further step. -/
theorem C2_amended_job_status_invariants (ss : List AStatus) :
    (overallStatus ss = JStatus.completed ↔ ss.all AStatus.isDone = true)
    ∧ (overallStatus ss = JStatus.completedWithErrors ↔
        (ss.all AStatus.isTerminal = true ∧ ss.any AStatus.isFailed = true))
    ∧ (ss.all AStatus.isTerminal = true →
        overallStatus ss ≠ JStatus.queued ∧ overallStatus ss ≠ JStatus.running)
    ∧ (∀ a b : AStatus, AStep a b → AStatus.rank a < AStatus.rank b)
    ∧ (∀ ss', JobStep ss ss' → (overallStatus ss).rank ≤ (overallStatus ss').rank)
    ∧ ((overallStatus ss = JStatus.completed
        ∨ overallStatus ss = JStatus.completedWithErrors) →
        ∀ ss', ¬ JobStep ss ss') := by
  refine ⟨overall_completed_iff ss, overall_cwe_iff ss,
    fun h => overall_terminal_not_queued_running h,
    fun a b h => astep_rank_lt h,
    fun ss' h => jobStep_rank_mono h, ?_⟩
  intro h
  apply no_jobStep_of_terminal
  rcases h with h | h
  · have hd := (overall_completed_iff ss).mp h
    rw [all_done_eq, Bool.and_eq_true] at hd
    exact hd.1
  · exact ((overall_cwe_iff ss).mp h).1
